import Mathlib

/-!
Verification development for the `shorts` repository
(`shorts_creator/evaluate.py` and `shorts_creator/database.py`).

Python strings are embedded as `List Char` (a Python `str` is a sequence
of code points; `len`, slicing and equality act on code points exactly as
`List Char` does). String literals from the source are written via
`String.data` of the corresponding Lean literal.
-/

namespace Shorts

/-- A Lean string literal viewed as a Python string (list of code points). -/
def pyStr (s : String) : List Char := s.data

/-- Embedding of `StoryData` (evaluate.py): `reddit_id`, `subreddit`,
`content`, `created_utc`, `flair` — `flair` is `str | None`. -/
structure StoryData where
  reddit_id : List Char
  subreddit : List Char
  content : List Char
  created_utc : Int
  flair : Option (List Char)
deriving DecidableEq

/-- Constant `MAX_TOKENS_PER_BATCH = 50000` from evaluate.py. -/
def MAX_TOKENS_PER_BATCH : Nat := 50000

/-- Constant `MAX_STORIES_PER_BATCH = 20` from evaluate.py. -/
def MAX_STORIES_PER_BATCH : Nat := 20

/-- Constant `MAX_RETRIES = 3` from evaluate.py. -/
def MAX_RETRIES : Nat := 3

/-- Helper for `str.split()` with no argument: accumulate maximal runs of
non-whitespace characters; `cur` is the run currently being read. -/
def wordsAux : List Char → List Char → List (List Char)
  | [], cur => if cur = [] then [] else [cur]
  | c :: rest, cur =>
    if c.isWhitespace then
      if cur = [] then wordsAux rest [] else cur :: wordsAux rest []
    else wordsAux rest (cur ++ [c])

/-- Embedding of Python `text.split()` (no separator): the maximal
whitespace-separated runs, leading/trailing whitespace ignored. -/
def pySplit (text : List Char) : List (List Char) := wordsAux text []

/-- `len(text.split())` — the word count used by `estimate_tokens`. -/
def pythonWords (text : List Char) : Nat := (pySplit text).length

/-- Embedding of `StoryEvaluator.estimate_tokens`:
`int(word_count / 0.75)`. Python divides by the double `0.75` (exactly
3/4) and truncates; for every word count below 2^51 the correctly rounded
division cannot cross an integer (the exact quotient `4n/3` has fractional
part 0, 1/3 or 2/3), so the result is exactly `⌊4n/3⌋`, i.e. natural
division `4 * n / 3`. -/
def estimate_tokens (text : List Char) : Nat :=
  4 * pythonWords text / 3

/-- Embedding of the template expression that renders the flair field or
the text None: Python `or` takes the right operand when the left one is
falsy, i.e. when the flair is absent or is the empty string. -/
def flairOrNone : Option (List Char) → List Char
  | none => pyStr "None"
  | some f => if f = [] then pyStr "None" else f

/-- Embedding of Python `str.strip()` with no argument: drop leading and
trailing whitespace. -/
def pyStrip (s : List Char) : List Char :=
  ((s.dropWhile Char.isWhitespace).reverse.dropWhile Char.isWhitespace).reverse

/-- Embedding of `StoryEvaluator.format_story_for_prompt`: the f-string
template (which begins and ends with a newline) followed by `.strip()`. -/
def format_story_for_prompt (story : StoryData) : List Char :=
  pyStrip
    (pyStr "\nStory ID: " ++ story.reddit_id
      ++ pyStr "\nSubreddit: r/" ++ story.subreddit
      ++ pyStr "\nFlair: " ++ flairOrNone story.flair
      ++ pyStr "\nContent: " ++ story.content
      ++ pyStr "\n")

/-- The token estimate `create_batches` computes for one story:
`estimate_tokens(format_story_for_prompt(story))`. -/
def storyTokens (story : StoryData) : Nat :=
  estimate_tokens (format_story_for_prompt story)

/-- The sort key relation of `sorted(stories, key=lambda x: len(x["content"]))`. -/
def lenLe (a b : StoryData) : Prop := a.content.length ≤ b.content.length

instance : DecidableRel lenLe :=
  fun a b => Nat.decLe a.content.length b.content.length

instance : IsTotal StoryData lenLe :=
  ⟨fun x y => Nat.le_total x.content.length y.content.length⟩

instance : IsTrans StoryData lenLe := ⟨fun _ _ _ h h' => Nat.le_trans h h'⟩

/-- The accumulation loop of `StoryEvaluator.create_batches` (lines
137-157): walk the sorted stories; if adding the next story would exceed
the token budget or the current batch is already at the story-count limit,
and the current batch is non-empty, close the current batch and start a
new one with this story; otherwise append the story to the current batch.
The final non-empty batch is emitted at the end. -/
def batchLoop : List StoryData → List StoryData → Nat → List (List StoryData)
  | [], current, _ => if current = [] then [] else [current]
  | story :: rest, current, tokens =>
    let story_tokens := storyTokens story
    if (MAX_TOKENS_PER_BATCH < tokens + story_tokens
          ∨ MAX_STORIES_PER_BATCH ≤ current.length)
        ∧ current ≠ [] then
      current :: batchLoop rest [story] story_tokens
    else
      batchLoop rest (current ++ [story]) (tokens + story_tokens)

/-- Embedding of `StoryEvaluator.create_batches`: sort the stories by
content length (Python `sorted` is stable, embedded as a stable insertion
sort) and run the accumulation loop on an empty batch with zero tokens. -/
def create_batches (stories : List StoryData) : List (List StoryData) :=
  batchLoop (List.insertionSort lenLe stories) [] 0

/-- Summed token estimate of a batch. -/
def batchTokens (batch : List StoryData) : Nat :=
  (batch.map storyTokens).sum

lemma batchLoop_join (rest : List StoryData) :
    ∀ current tokens, (batchLoop rest current tokens).flatten = current ++ rest := by
  induction rest with
  | nil =>
    intro current tokens
    by_cases h : current = [] <;> simp [batchLoop, h]
  | cons story rest ih =>
    intro current tokens
    simp only [batchLoop]
    split
    · simp [ih]
    · simp [ih]

lemma batchLoop_ne_nil (rest : List StoryData) :
    ∀ current tokens b, b ∈ batchLoop rest current tokens → b ≠ [] := by
  induction rest with
  | nil =>
    intro current tokens b hb
    by_cases h : current = [] <;> simp [batchLoop, h] at hb
    exact hb ▸ h
  | cons story rest ih =>
    intro current tokens b hb
    simp only [batchLoop] at hb
    split at hb
    · rcases List.mem_cons.mp hb with h | h
      · next hc => exact h ▸ hc.2
      · exact ih _ _ _ h
    · exact ih _ _ _ hb

/-- The loop invariant of `batchLoop`: the running token total matches the
current batch, the current batch is within the story-count limit, and it
can only be over the token budget when it is at most a singleton. -/
def BatchInv (current : List StoryData) (tokens : Nat) : Prop :=
  tokens = batchTokens current ∧
    current.length ≤ MAX_STORIES_PER_BATCH ∧
    (MAX_TOKENS_PER_BATCH < batchTokens current → current.length ≤ 1)

lemma batchTokens_nil : batchTokens [] = 0 := rfl

lemma batchTokens_singleton (s : StoryData) : batchTokens [s] = storyTokens s := by
  simp [batchTokens]

lemma batchTokens_append (l : List StoryData) (s : StoryData) :
    batchTokens (l ++ [s]) = batchTokens l + storyTokens s := by
  simp [batchTokens]

lemma batchInv_singleton (s : StoryData) : BatchInv [s] (storyTokens s) := by
  refine ⟨(batchTokens_singleton s).symm, ?_, fun _ => le_refl 1⟩
  simp [MAX_STORIES_PER_BATCH]

lemma batchLoop_good (rest : List StoryData) :
    ∀ current tokens, BatchInv current tokens →
      ∀ b ∈ batchLoop rest current tokens,
        b.length ≤ MAX_STORIES_PER_BATCH ∧
          (MAX_TOKENS_PER_BATCH < batchTokens b →
            ∃ s, b = [s] ∧ MAX_TOKENS_PER_BATCH < storyTokens s) := by
  have emit : ∀ current tokens, BatchInv current tokens → current ≠ [] →
      current.length ≤ MAX_STORIES_PER_BATCH ∧
        (MAX_TOKENS_PER_BATCH < batchTokens current →
          ∃ s, current = [s] ∧ MAX_TOKENS_PER_BATCH < storyTokens s) := by
    intro current tokens hinv hne
    refine ⟨hinv.2.1, fun hover => ?_⟩
    have hlen1 : current.length ≤ 1 := hinv.2.2 hover
    have hpos : 0 < current.length := List.length_pos.mpr hne
    have hlen : current.length = 1 := Nat.le_antisymm hlen1 hpos
    obtain ⟨s, hs⟩ := List.length_eq_one.mp hlen
    refine ⟨s, hs, ?_⟩
    rw [hs, batchTokens_singleton] at hover
    exact hover
  induction rest with
  | nil =>
    intro current tokens hinv b hb
    by_cases h : current = [] <;> simp [batchLoop, h] at hb
    exact hb ▸ emit current tokens hinv h
  | cons story rest ih =>
    intro current tokens hinv b hb
    simp only [batchLoop] at hb
    split at hb
    · next hcond =>
      rcases List.mem_cons.mp hb with h | h
      · exact h ▸ emit current tokens hinv hcond.2
      · exact ih [story] (storyTokens story) (batchInv_singleton story) b h
    · next hcond =>
      by_cases hc : current = []
      · subst hc
        have ht : tokens = 0 := by simpa [batchTokens_nil] using hinv.1
        subst ht
        exact ih [story] (storyTokens story) (batchInv_singleton story) b
          (by simpa using hb)
      · have hnot : ¬(MAX_TOKENS_PER_BATCH < tokens + storyTokens story
            ∨ MAX_STORIES_PER_BATCH ≤ current.length) := fun h => hcond ⟨h, hc⟩
        push_neg at hnot
        refine ih (current ++ [story]) (tokens + storyTokens story) ?_ b hb
        refine ⟨by rw [batchTokens_append, hinv.1], ?_, fun hover => ?_⟩
        · simpa using Nat.succ_le_of_lt hnot.2
        · exact absurd (hinv.1 ▸ batchTokens_append current story ▸ hover)
            (Nat.not_lt.mpr hnot.1)

lemma create_batches_flatten (stories : List StoryData) :
    (create_batches stories).flatten = List.insertionSort lenLe stories := by
  rw [create_batches, batchLoop_join]
  rfl

lemma create_batches_perm (stories : List StoryData) :
    (create_batches stories).flatten.Perm stories := by
  rw [create_batches_flatten]
  exact List.perm_insertionSort lenLe stories

/-- A small concrete story used to instantiate hypothesis-bearing theorems. -/
def demoStory : StoryData :=
  ⟨pyStr "abc123", pyStr "stories", pyStr "hello world", 0, none⟩

/-- C1: every batch produced by `create_batches` is non-empty, and the
concatenation of all batches is a permutation of the input list — no story
is lost and none is duplicated. -/
theorem create_batches_partition (stories : List StoryData) :
    (∀ b ∈ create_batches stories, b ≠ []) ∧
      (create_batches stories).flatten.Perm stories := by
  constructor
  · intro b hb
    exact batchLoop_ne_nil _ _ _ _ hb
  · exact create_batches_perm stories

/-- Witness for C1 at a concrete input. -/
theorem create_batches_partition_witness :
    [demoStory] ≠ [] ∧ (create_batches [demoStory]).flatten.Perm [demoStory] :=
  ⟨(create_batches_partition [demoStory]).1 [demoStory] (by decide),
    (create_batches_partition [demoStory]).2⟩

/-- C2: no batch exceeds `MAX_STORIES_PER_BATCH = 20` stories; a batch
whose summed token estimate exceeds `MAX_TOKENS_PER_BATCH` is necessarily
a singleton holding one story whose own estimate exceeds the budget; and
every story (in particular an oversized one) is placed into some batch,
never dropped. -/
theorem create_batches_budgets (stories : List StoryData) :
    (∀ b ∈ create_batches stories,
        b.length ≤ MAX_STORIES_PER_BATCH ∧
          (MAX_TOKENS_PER_BATCH < batchTokens b →
            ∃ s, b = [s] ∧ MAX_TOKENS_PER_BATCH < storyTokens s)) ∧
      ∀ s ∈ stories, ∃ b ∈ create_batches stories, s ∈ b := by
  constructor
  · intro b hb
    refine batchLoop_good _ [] 0 ?_ b hb
    exact ⟨rfl, by simp [MAX_STORIES_PER_BATCH], by simp [batchTokens_nil]⟩
  · intro s hs
    have : s ∈ (create_batches stories).flatten :=
      ((create_batches_perm stories).mem_iff).mpr hs
    exact List.mem_flatten.mp this

/-- Witness for C2 at a concrete input. -/
theorem create_batches_budgets_witness :
    ([demoStory].length ≤ MAX_STORIES_PER_BATCH ∧
        (MAX_TOKENS_PER_BATCH < batchTokens [demoStory] →
          ∃ s, [demoStory] = [s] ∧ MAX_TOKENS_PER_BATCH < storyTokens s)) ∧
      ∃ b ∈ create_batches [demoStory], demoStory ∈ b :=
  ⟨(create_batches_budgets [demoStory]).1 [demoStory] (by decide),
    (create_batches_budgets [demoStory]).2 demoStory (by decide)⟩

lemma filter_orderedInsert_eq (ℓ : Nat) (a : StoryData) (l : List StoryData)
    (ha : a.content.length = ℓ) :
    (List.orderedInsert lenLe a l).filter (fun s => s.content.length == ℓ)
      = a :: l.filter (fun s => s.content.length == ℓ) := by
  induction l with
  | nil => simp [List.orderedInsert, ha]
  | cons b l ih =>
    by_cases h : lenLe a b
    · simp [List.orderedInsert, h, ha]
    · have hb : ¬b.content.length = ℓ := fun hbl => h (by simp [lenLe, ha, hbl])
      simp [List.orderedInsert, h, hb, ih]

lemma filter_orderedInsert_ne (ℓ : Nat) (a : StoryData) (l : List StoryData)
    (ha : ¬a.content.length = ℓ) :
    (List.orderedInsert lenLe a l).filter (fun s => s.content.length == ℓ)
      = l.filter (fun s => s.content.length == ℓ) := by
  induction l with
  | nil => simp [List.orderedInsert, ha]
  | cons b l ih =>
    by_cases h : lenLe a b
    · simp [List.orderedInsert, h, ha]
    · simp only [List.orderedInsert, if_neg h, List.filter_cons]
      rw [ih]

lemma filter_insertionSort (ℓ : Nat) (l : List StoryData) :
    (List.insertionSort lenLe l).filter (fun s => s.content.length == ℓ)
      = l.filter (fun s => s.content.length == ℓ) := by
  induction l with
  | nil => rfl
  | cons a l ih =>
    simp only [List.insertionSort]
    by_cases h : a.content.length = ℓ
    · rw [filter_orderedInsert_eq ℓ a _ h, ih, List.filter_cons]
      simp [h]
    · rw [filter_orderedInsert_ne ℓ a _ h, ih, List.filter_cons]
      simp [h]

/-- C8: the batch planner is deterministic — the same input yields the
same batches — and the concatenation of the batches is the input sorted
ascending by content length, with ties kept in original input order
(stable sort): for every length `ℓ`, the stories of that content length
appear in exactly their original relative order. -/
theorem create_batches_deterministic_stable (stories : List StoryData) :
    create_batches stories = create_batches stories ∧
      List.Sorted lenLe (create_batches stories).flatten ∧
      ∀ ℓ : Nat,
        (create_batches stories).flatten.filter (fun s => s.content.length == ℓ)
          = stories.filter (fun s => s.content.length == ℓ) := by
  refine ⟨rfl, ?_, ?_⟩
  · rw [create_batches_flatten]
    exact List.sorted_insertionSort lenLe stories
  · intro ℓ
    rw [create_batches_flatten]
    exact filter_insertionSort ℓ stories

/-- The batch-processing loop of `StoryEvaluator.run` (lines 317-340),
abstracted over the outcome (`True` = success) of each batch: `failures`
is the consecutive-failure counter, reset to `0` on success, incremented
on failure; once it reaches `MAX_RETRIES` the loop breaks. The result is
the list of outcomes of the batches actually processed, in order. -/
def processOutcomes : List Bool → Nat → List Bool
  | [], _ => []
  | o :: rest, failures =>
    if o then o :: processOutcomes rest 0
    else if MAX_RETRIES ≤ failures + 1 then [o]
    else o :: processOutcomes rest (failures + 1)

/-- One step of the consecutive-failure counter as the spec describes it:
reset to zero on a success, increment on a failure. -/
def counterStep (c : Nat) (o : Bool) : Nat := if o then 0 else c + 1

/-- The consecutive-failure counter after a sequence of outcomes. -/
def counterAfter (outs : List Bool) : Nat := outs.foldl counterStep 0

lemma processOutcomes_front (outs : List Bool) :
    ∀ f, processOutcomes outs f <+: outs := by
  induction outs with
  | nil => intro f; simp [processOutcomes]
  | cons o rest ih =>
    intro f
    simp only [processOutcomes]
    split
    · obtain ⟨t, ht⟩ := ih 0
      exact ⟨t, by rw [List.cons_append, ht]⟩
    · split
      · exact ⟨rest, rfl⟩
      · obtain ⟨t, ht⟩ := ih (f + 1)
        exact ⟨t, by rw [List.cons_append, ht]⟩

lemma processOutcomes_counter (outs : List Bool) :
    ∀ f, f < MAX_RETRIES →
      (∀ j < (processOutcomes outs f).length,
          (outs.take j).foldl counterStep f < MAX_RETRIES) ∧
        ((processOutcomes outs f).length < outs.length →
          (outs.take (processOutcomes outs f).length).foldl counterStep f
            = MAX_RETRIES) := by
  induction outs with
  | nil =>
    intro f hf
    exact ⟨fun j hj => absurd hj (by simp [processOutcomes]),
      fun h => absurd h (by simp [processOutcomes])⟩
  | cons o rest ih =>
    intro f hf
    simp only [processOutcomes]
    split
    · next ho =>
      obtain ⟨ihA, ihB⟩ := ih 0 (by simp [MAX_RETRIES])
      constructor
      · intro j hj
        match j with
        | 0 => simpa using hf
        | j + 1 =>
          have hj' : j < (processOutcomes rest 0).length := by simpa using hj
          simpa [counterStep, ho] using ihA j hj'
      · intro hlt
        have hlt' : (processOutcomes rest 0).length < rest.length := by
          simpa using hlt
        simpa [counterStep, ho] using ihB hlt'
    · next ho =>
      split
      · next hthr =>
        constructor
        · intro j hj
          have hj0 : j = 0 := by simpa using Nat.lt_one_iff.mp (by simpa using hj)
          simpa [hj0] using hf
        · intro _
          have : f + 1 = MAX_RETRIES := Nat.le_antisymm hf hthr
          simpa [counterStep, ho] using this
      · next hthr =>
        have hf' : f + 1 < MAX_RETRIES := Nat.lt_of_not_le hthr
        obtain ⟨ihA, ihB⟩ := ih (f + 1) hf'
        constructor
        · intro j hj
          match j with
          | 0 => simpa using hf
          | j + 1 =>
            have hj' : j < (processOutcomes rest (f + 1)).length := by simpa using hj
            simpa [counterStep, ho] using ihA j hj'
        · intro hlt
          have hlt' : (processOutcomes rest (f + 1)).length < rest.length := by
            simpa using hlt
          simpa [counterStep, ho] using ihB hlt'

/-- C3: the run loop processes a prefix of the batch sequence; before every
processed batch the consecutive-failure counter (incremented on failure,
reset on success) is below `MAX_RETRIES = 3`; if the run halts early then
the counter equals `MAX_RETRIES` exactly at the halt point; and on the
outcome sequences `[fail, fail, fail, success]` and
`[fail, fail, success, fail, fail, fail]` the loop processes exactly the
first three batches, respectively all six. -/
theorem run_circuit_breaker (outs : List Bool) :
    processOutcomes outs 0 <+: outs ∧
      (∀ j < (processOutcomes outs 0).length,
        counterAfter (outs.take j) < MAX_RETRIES) ∧
      ((processOutcomes outs 0).length < outs.length →
        counterAfter (outs.take (processOutcomes outs 0).length) = MAX_RETRIES) ∧
      processOutcomes [false, false, false, true] 0 = [false, false, false] ∧
      processOutcomes [false, false, true, false, false, false] 0
        = [false, false, true, false, false, false] := by
  obtain ⟨hA, hB⟩ := processOutcomes_counter outs 0 (by simp [MAX_RETRIES])
  exact ⟨processOutcomes_front outs 0, hA, hB, by decide, by decide⟩

/-- Witness for C3 at concrete inputs. -/
theorem run_circuit_breaker_witness :
    processOutcomes [false, false, false, true] 0 = [false, false, false] ∧
      processOutcomes [false, false, true, false, false, false] 0
        = [false, false, true, false, false, false] :=
  ⟨(run_circuit_breaker []).2.2.2.1, (run_circuit_breaker []).2.2.2.2⟩

/-- Constant `CATEGORIES` from evaluate.py. -/
def CATEGORIES : List (List Char) :=
  [pyStr "relationship", pyStr "workplace", pyStr "family", pyStr "revenge",
    pyStr "confession", pyStr "humor", pyStr "drama", pyStr "mystery",
    pyStr "lifestyle", pyStr "uncategorized"]

/-- Constant `TARGET_AUDIENCES` from evaluate.py. -/
def TARGET_AUDIENCES : List (List Char) :=
  [pyStr "general", pyStr "young_adult", pyStr "mature", pyStr "teens"]

/-- A Python value as far as `validate_evaluation` inspects it: a string,
an integer, or anything else. -/
inductive PyValue where
  | str (s : List Char)
  | int (n : Int)
  | other
deriving DecidableEq

/-- A candidate evaluation record (one JSON object of the response): each
of the four keys the code reads is either absent or bound to a value. -/
structure EvalRecord where
  reddit_id : Option PyValue
  score : Option PyValue
  category : Option PyValue
  target_audience : Option PyValue
deriving DecidableEq

/-- The `reddit_id` check of `validate_evaluation` (lines 200-204): the
value must be present, be a string, and have length between 6 and 10. An
absent field was already rejected by the required-fields loop, which this
check absorbs by returning false on `none`. -/
def checkId : Option PyValue → Bool
  | some (.str s) => decide (6 ≤ s.length) && decide (s.length ≤ 10)
  | _ => false

/-- The `score` check (lines 206-211): present, an `int`, and within the
closed range 0 to 100. -/
def checkScore : Option PyValue → Bool
  | some (.int n) => decide (0 ≤ n) && decide (n ≤ 100)
  | _ => false

/-- The `category` check (lines 213-216): Python `in` on a list of strings
is false for any non-string value, so the value must be a string belonging
to `CATEGORIES`. -/
def checkCategory : Option PyValue → Bool
  | some (.str c) => decide (c ∈ CATEGORIES)
  | _ => false

/-- The `target_audience` check (lines 218-221): a string belonging to
`TARGET_AUDIENCES`. -/
def checkAudience : Option PyValue → Bool
  | some (.str a) => decide (a ∈ TARGET_AUDIENCES)
  | _ => false

/-- Embedding of `StoryEvaluator.validate_evaluation`: the record passes
iff all four fields are present and each passes its check. The code checks
presence of all four first and then each value in order, short-circuiting;
as a Boolean function this is the conjunction of the per-field checks,
each of which is false on an absent field. -/
def validate_evaluation (evaluation : EvalRecord) : Bool :=
  checkId evaluation.reddit_id && checkScore evaluation.score
    && checkCategory evaluation.category && checkAudience evaluation.target_audience

/-- Value of `eval_dict["reddit_id"]` for a record that passed validation
(defaulting arbitrarily otherwise). -/
def recId (e : EvalRecord) : List Char :=
  match e.reddit_id with
  | some (.str s) => s
  | _ => []

/-- Value of `eval_dict["score"]` for a validated record. -/
def recScore (e : EvalRecord) : Int :=
  match e.score with
  | some (.int n) => n
  | _ => 0

/-- Value of `eval_dict["category"]` for a validated record. -/
def recCategory (e : EvalRecord) : List Char :=
  match e.category with
  | some (.str c) => c
  | _ => []

/-- Value of `eval_dict["target_audience"]` for a validated record. -/
def recAudience (e : EvalRecord) : List Char :=
  match e.target_audience with
  | some (.str a) => a
  | _ => []

/-- A row of the `stories_evaluations` table (database.py), primary key
`reddit_id`. -/
structure EvalRow where
  reddit_id : List Char
  score : Int
  category : List Char
  target_audience : List Char
deriving DecidableEq

/-- The row written for an accepted evaluation record. -/
def evalRowOf (e : EvalRecord) : EvalRow :=
  ⟨recId e, recScore e, recCategory e, recAudience e⟩

/-- Whether the evaluations table already holds a row with this primary
key. -/
def hasEvalId (table : List EvalRow) (id : List Char) : Bool :=
  table.any (fun r => decide (r.reddit_id = id))

/-- Embedding of `_insert_evaluations_batch` (database.py, both the
SQLite and the PostgreSQL subclass): `INSERT ... ON CONFLICT DO NOTHING`
keyed on `reddit_id` — each row whose key is already present (in the
table, or earlier in the same batch) is skipped; returns the new table and
the row count of performed insertions. -/
def insertEvalsBatch : List EvalRow → List EvalRow → List EvalRow × Nat
  | table, [] => (table, 0)
  | table, e :: rest =>
    if hasEvalId table e.reddit_id then insertEvalsBatch table rest
    else
      let p := insertEvalsBatch (table ++ [e]) rest
      (p.1, p.2 + 1)

/-- The set `batch_reddit_ids` of `process_batch` (line 250). -/
def batchIdsOf (batch : List StoryData) : Finset (List Char) :=
  (batch.map StoryData.reddit_id).toFinset

/-- The per-record filtering loop of `process_batch` (lines 253-265): keep
a record iff it passes `validate_evaluation` and its `reddit_id` belongs to
the batch; the kept rows in response order, together with the set
`evaluated_reddit_ids`. -/
def collectValid (batchIds : Finset (List Char)) :
    List EvalRecord → List EvalRow × Finset (List Char)
  | [] => ([], ∅)
  | e :: rest =>
    let p := collectValid batchIds rest
    if validate_evaluation e ∧ recId e ∈ batchIds then
      (evalRowOf e :: p.1, insert (recId e) p.2)
    else p

/-- The outcome of `call_gemini` plus the top-level shape of the parsed
response: the call raised, or the JSON was not a list, or it was a list of
candidate records. -/
inductive ApiResponse where
  | fail
  | notList
  | list (evaluations : List EvalRecord)

/-- The observable result of `process_batch`: the returned Boolean, the
evaluations table after the call, the `missing_ids` set, and the number of
records accepted into `valid_evaluations`. -/
structure BatchResult where
  success : Bool
  table : List EvalRow
  missing : Finset (List Char)
  accepted : Nat
deriving DecidableEq

/-- Embedding of `StoryEvaluator.process_batch` (lines 225-285), with the
Gemini call abstracted as an `ApiResponse` and the database as the list of
`stories_evaluations` rows. A raised call (caught at line 235), a non-list
response, or an empty response list each return failure at once; otherwise
the records are filtered, `missing_ids` is the batch ids minus the
evaluated ids, and success means the insert reported at least one new
row. -/
def process_batch (batch : List StoryData) (resp : ApiResponse)
    (table : List EvalRow) : BatchResult :=
  match resp with
  | .fail => ⟨false, table, ∅, 0⟩
  | .notList => ⟨false, table, ∅, 0⟩
  | .list evaluations =>
    if evaluations.length = 0 then ⟨false, table, ∅, 0⟩
    else
      let batchIds := batchIdsOf batch
      let p := collectValid batchIds evaluations
      let missing := batchIds \ p.2
      if p.1 = [] then ⟨false, table, missing, 0⟩
      else
        let ins := insertEvalsBatch table p.1
        ⟨decide (0 < ins.2), ins.1, missing, p.1.length⟩

lemma checkId_iff (v : Option PyValue) :
    checkId v = true ↔ ∃ s, v = some (.str s) ∧ 6 ≤ s.length ∧ s.length ≤ 10 := by
  cases v with
  | none => simp [checkId]
  | some pv => cases pv <;> simp [checkId]

lemma checkScore_iff (v : Option PyValue) :
    checkScore v = true ↔ ∃ n, v = some (.int n) ∧ 0 ≤ n ∧ n ≤ 100 := by
  cases v with
  | none => simp [checkScore]
  | some pv => cases pv <;> simp [checkScore]

lemma checkCategory_iff (v : Option PyValue) :
    checkCategory v = true ↔ ∃ c, v = some (.str c) ∧ c ∈ CATEGORIES := by
  cases v with
  | none => simp [checkCategory]
  | some pv => cases pv <;> simp [checkCategory]

lemma checkAudience_iff (v : Option PyValue) :
    checkAudience v = true ↔ ∃ a, v = some (.str a) ∧ a ∈ TARGET_AUDIENCES := by
  cases v with
  | none => simp [checkAudience]
  | some pv => cases pv <;> simp [checkAudience]

lemma collectValid_mem_batch (batchIds : Finset (List Char))
    (evals : List EvalRecord) :
    ∀ row ∈ (collectValid batchIds evals).1, row.reddit_id ∈ batchIds := by
  induction evals with
  | nil => intro row hrow; simp [collectValid] at hrow
  | cons e rest ih =>
    intro row hrow
    simp only [collectValid] at hrow
    split at hrow
    · next hc =>
      rcases List.mem_cons.mp hrow with h | h
      · have : row.reddit_id = recId e := by rw [h]; rfl
        exact this ▸ hc.2
      · exact ih row h
    · exact ih row hrow

lemma collectValid_ids_subset (batchIds : Finset (List Char))
    (evals : List EvalRecord) :
    (collectValid batchIds evals).2 ⊆ batchIds := by
  induction evals with
  | nil => simp [collectValid]
  | cons e rest ih =>
    simp only [collectValid]
    split
    · next hc => exact Finset.insert_subset hc.2 ih
    · exact ih

lemma collectValid_ids_eq (batchIds : Finset (List Char))
    (evals : List EvalRecord) :
    (collectValid batchIds evals).2
      = ((collectValid batchIds evals).1.map EvalRow.reddit_id).toFinset := by
  induction evals with
  | nil => simp [collectValid]
  | cons e rest ih =>
    simp only [collectValid]
    split
    · simp [ih, evalRowOf]
    · exact ih

/-- The set of primary keys already present in the evaluations table. -/
def tableIds (table : List EvalRow) : Finset (List Char) :=
  (table.map EvalRow.reddit_id).toFinset

lemma hasEvalId_iff (table : List EvalRow) (id : List Char) :
    hasEvalId table id = true ↔ id ∈ tableIds table := by
  simp [hasEvalId, tableIds]

lemma tableIds_append (table : List EvalRow) (e : EvalRow) :
    tableIds (table ++ [e]) = insert e.reddit_id (tableIds table) := by
  ext x
  simp [tableIds, or_comm]

lemma insertEvalsBatch_count (evals : List EvalRow) :
    ∀ table, (insertEvalsBatch table evals).2
      = (((evals.map EvalRow.reddit_id).toFinset) \ tableIds table).card := by
  induction evals with
  | nil => intro table; simp [insertEvalsBatch]
  | cons e rest ih =>
    intro table
    simp only [insertEvalsBatch]
    split
    · next hmem =>
      have he : e.reddit_id ∈ tableIds table := (hasEvalId_iff table _).mp hmem
      rw [ih table]
      simp [Finset.insert_sdiff_of_mem _ he]
    · next hmem =>
      have he : e.reddit_id ∉ tableIds table :=
        fun h => hmem ((hasEvalId_iff table _).mpr h)
      show (insertEvalsBatch (table ++ [e]) rest).2 + 1 = _
      rw [ih (table ++ [e]), tableIds_append, Finset.sdiff_insert,
        List.map_cons, List.toFinset_cons, Finset.insert_sdiff_of_not_mem _ he]
      by_cases hr : e.reddit_id ∈ (rest.map EvalRow.reddit_id).toFinset \ tableIds table
      · rw [Finset.insert_eq_self.mpr hr, Finset.card_erase_add_one hr]
      · rw [Finset.card_insert_of_not_mem hr, Finset.erase_eq_of_not_mem hr]

/-- C4: `validate_evaluation` accepts a record exactly when all four
required fields are present, `reddit_id` is a string of length 6 to 10,
`score` is an integer in the closed range 0 to 100, `category` is in the
fixed category set, and `target_audience` is in the fixed audience set —
so it rejects on any missing field or out-of-range/out-of-set value; and
every evaluation kept by the filtering loop of `process_batch` (hence every
evaluation passed to the store) carries a `reddit_id` of the batch sent. -/
theorem validate_evaluation_spec (e : EvalRecord) :
    (validate_evaluation e = true ↔
      (∃ s, e.reddit_id = some (.str s) ∧ 6 ≤ s.length ∧ s.length ≤ 10) ∧
        (∃ n, e.score = some (.int n) ∧ 0 ≤ n ∧ n ≤ 100) ∧
        (∃ c, e.category = some (.str c) ∧ c ∈ CATEGORIES) ∧
        (∃ a, e.target_audience = some (.str a) ∧ a ∈ TARGET_AUDIENCES)) ∧
      ∀ (batchIds : Finset (List Char)) (evals : List EvalRecord),
        ∀ row ∈ (collectValid batchIds evals).1, row.reddit_id ∈ batchIds := by
  constructor
  · rw [validate_evaluation]
    simp only [Bool.and_eq_true, checkId_iff, checkScore_iff, checkCategory_iff,
      checkAudience_iff, and_assoc]
  · exact fun batchIds evals => collectValid_mem_batch batchIds evals

/-- A concrete record passing validation, used by the witnesses. -/
def demoRecord : EvalRecord :=
  ⟨some (.str (pyStr "abc123")), some (.int 50),
    some (.str (pyStr "humor")), some (.str (pyStr "teens"))⟩

/-- Witness for C4 at concrete inputs: the demo record validates (and its
field values satisfy the contract), while a record missing `score` is
rejected. -/
theorem validate_evaluation_spec_witness :
    validate_evaluation demoRecord = true ∧
      validate_evaluation ⟨some (.str (pyStr "abc123")), none,
        some (.str (pyStr "humor")), some (.str (pyStr "teens"))⟩ = false := by
  constructor
  · exact (validate_evaluation_spec demoRecord).1.mpr
      ⟨⟨pyStr "abc123", rfl, by decide, by decide⟩,
        ⟨50, rfl, by decide, by decide⟩,
        ⟨pyStr "humor", rfl, by decide⟩,
        ⟨pyStr "teens", rfl, by decide⟩⟩
  · have h := (validate_evaluation_spec (⟨some (.str (pyStr "abc123")), none,
      some (.str (pyStr "humor")), some (.str (pyStr "teens"))⟩ : EvalRecord)).1
    by_contra hcon
    have := (h.mp (by simpa using eq_true_of_ne_false hcon)).2.1
    simp at this

lemma batchIdsOf_card (batch : List StoryData)
    (h : (batch.map StoryData.reddit_id).Nodup) :
    (batchIdsOf batch).card = batch.length := by
  rw [batchIdsOf, List.toFinset_card_of_nodup h, List.length_map]

lemma process_batch_list_eq (batch : List StoryData) (evals : List EvalRecord)
    (table : List EvalRow) (hne : ¬evals.length = 0) :
    process_batch batch (.list evals) table
      = if (collectValid (batchIdsOf batch) evals).1 = [] then
          ⟨false, table,
            batchIdsOf batch \ (collectValid (batchIdsOf batch) evals).2, 0⟩
        else
          ⟨decide
              (0 < (insertEvalsBatch table (collectValid (batchIdsOf batch) evals).1).2),
            (insertEvalsBatch table (collectValid (batchIdsOf batch) evals).1).1,
            batchIdsOf batch \ (collectValid (batchIdsOf batch) evals).2,
            (collectValid (batchIdsOf batch) evals).1.length⟩ := by
  simp only [process_batch, if_neg hne]

/-- C5: for a batch of `N` distinct-id stories none of which is already
evaluated in the store, and a response list in which exactly `M` of those
stories receive an accepted valid evaluation (`M` = the cardinality of
`evaluated_reddit_ids`), the `missing_ids` set has exactly `N − M`
members, and `process_batch` succeeds iff `M ≥ 1`. -/
theorem process_batch_coverage (batch : List StoryData) (evals : List EvalRecord)
    (table : List EvalRow)
    (hnodup : (batch.map StoryData.reddit_id).Nodup)
    (hfresh : ∀ s ∈ batch, hasEvalId table s.reddit_id = false)
    (hne : evals ≠ []) :
    (process_batch batch (.list evals) table).missing.card
        = batch.length - ((collectValid (batchIdsOf batch) evals).2).card ∧
      ((process_batch batch (.list evals) table).success = true
        ↔ 1 ≤ ((collectValid (batchIdsOf batch) evals).2).card) := by
  have hlen : ¬evals.length = 0 := fun h => hne (List.length_eq_zero.mp h)
  rw [process_batch_list_eq batch evals table hlen]
  have hsub : (collectValid (batchIdsOf batch) evals).2 ⊆ batchIdsOf batch :=
    collectValid_ids_subset _ _
  have hids := collectValid_ids_eq (batchIdsOf batch) evals
  have hmissing :
      (batchIdsOf batch \ (collectValid (batchIdsOf batch) evals).2).card
        = batch.length - ((collectValid (batchIdsOf batch) evals).2).card := by
    rw [Finset.card_sdiff hsub, batchIdsOf_card batch hnodup]
  by_cases hp : (collectValid (batchIdsOf batch) evals).1 = []
  · rw [if_pos hp]
    refine ⟨hmissing, ?_⟩
    have hM : ((collectValid (batchIdsOf batch) evals).2).card = 0 := by
      rw [hids, hp]
      simp
    simp [hM]
  · rw [if_neg hp]
    refine ⟨hmissing, ?_⟩
    have hdisj : Disjoint
        (((collectValid (batchIdsOf batch) evals).1.map EvalRow.reddit_id).toFinset)
        (tableIds table) := by
      rw [Finset.disjoint_left]
      intro id hid hidT
      have hidb : id ∈ batchIdsOf batch := hsub (hids ▸ hid)
      rw [batchIdsOf, List.mem_toFinset, List.mem_map] at hidb
      obtain ⟨s, hs, hsid⟩ := hidb
      have := hfresh s hs
      rw [hsid] at this
      exact absurd ((hasEvalId_iff table id).mpr hidT) (by simp [this])
    have hcount : (insertEvalsBatch table (collectValid (batchIdsOf batch) evals).1).2
        = ((collectValid (batchIdsOf batch) evals).2).card := by
      rw [insertEvalsBatch_count, Finset.sdiff_eq_self_of_disjoint hdisj, hids]
    simp only [BatchResult.mk.injEq, decide_eq_true_eq, hcount]
    constructor
    · intro h
      exact h
    · intro h
      exact h

/-- A second concrete story, with a different id than `demoStory`. -/
def demoStory2 : StoryData :=
  ⟨pyStr "bcdefg", pyStr "stories", pyStr "longer content here", 1,
    some (pyStr "tag")⟩

/-- Witness for C5 at a concrete input: a batch of two stories and a
response validly evaluating exactly one of them. -/
theorem process_batch_coverage_witness :
    (process_batch [demoStory, demoStory2] (.list [demoRecord]) []).missing.card
        = [demoStory, demoStory2].length
            - ((collectValid (batchIdsOf [demoStory, demoStory2]) [demoRecord]).2).card ∧
      ((process_batch [demoStory, demoStory2] (.list [demoRecord]) []).success = true
        ↔ 1 ≤ ((collectValid (batchIdsOf [demoStory, demoStory2]) [demoRecord]).2).card) :=
  process_batch_coverage [demoStory, demoStory2] [demoRecord] []
    (by decide) (by decide) (by decide)

/-- The `success` value the run loop obtains from one batch (lines
323-327): the Boolean returned by `process_batch`, or `False` when the
batch processing raised — the `except` clause converts the exception into
a failure instead of letting it escape. -/
def runStepSuccess : Except Unit Bool → Bool
  | .ok b => b
  | .error _ => false

/-- The run loop of `StoryEvaluator.run` over per-batch results that may
be exceptions, counting how many batches are processed before the loop
ends (normally or through the circuit breaker). -/
def runCount : List (Except Unit Bool) → Nat → Nat
  | [], _ => 0
  | x :: rest, failures =>
    if runStepSuccess x then 1 + runCount rest 0
    else if MAX_RETRIES ≤ failures + 1 then 1
    else 1 + runCount rest (failures + 1)

lemma runCount_eq_processOutcomes (xs : List (Except Unit Bool)) :
    ∀ f, runCount xs f = (processOutcomes (xs.map runStepSuccess) f).length := by
  induction xs with
  | nil => intro f; simp [runCount, processOutcomes]
  | cons x rest ih =>
    intro f
    simp only [runCount, List.map_cons, processOutcomes]
    by_cases hx : runStepSuccess x
    · simp [hx, ih 0, Nat.add_comm]
    · by_cases hthr : MAX_RETRIES ≤ f + 1
      · simp [hx, hthr]
      · simp [hx, hthr, ih (f + 1), Nat.add_comm]

/-- C6: a response that does not deserialize to a list makes the whole
batch fail — `process_batch` returns failure, persists nothing and accepts
zero evaluations — and an exception inside the processing of one batch is
caught by the run loop and treated exactly like a failed batch: the loop
behaves on an exception outcome precisely as on a `False` outcome (counted
toward the circuit breaker, never terminating the run). -/
theorem batch_failure_isolation :
    (∀ batch table, (process_batch batch .notList table).success = false ∧
        (process_batch batch .notList table).table = table ∧
        (process_batch batch .notList table).accepted = 0) ∧
      (∀ xs f, runCount xs f = (processOutcomes (xs.map runStepSuccess) f).length) ∧
      ∀ (rest : List (Except Unit Bool)) (f : Nat),
        runCount (.error () :: rest) f = runCount (.ok false :: rest) f := by
  refine ⟨fun batch table => ⟨rfl, rfl, rfl⟩,
    fun xs f => runCount_eq_processOutcomes xs f, fun rest f => ?_⟩
  simp [runCount, runStepSuccess]

/-- Witness for C6 at concrete inputs. -/
theorem batch_failure_isolation_witness :
    (process_batch [demoStory] .notList []).success = false ∧
      runCount [.error ()] 0 = runCount [.ok false] 0 :=
  ⟨(batch_failure_isolation.1 [demoStory] []).1,
    batch_failure_isolation.2.2 [] 0⟩

lemma floor_div_point_75 (n : Nat) :
    (⌊(n : ℚ) / (0.75 : ℚ)⌋).toNat = 4 * n / 3 := by
  have hq : (n : ℚ) / (0.75 : ℚ) = ((4 * n : ℕ) : ℚ) / ((3 : ℕ) : ℚ) := by
    push_cast
    ring
  rw [hq, Rat.floor_natCast_div_natCast]
  exact Int.toNat_ofNat _

/-- C7: for every story, the token cost the batch planner uses is exactly
`words / 0.75` (truncated to an integer, as `int()` does) of the formatted
text, and the formatted text is the stripped fixed template joining the
id, the subreddit, the flair-or-"None", and the content of the story. -/
theorem estimate_tokens_formula (story : StoryData) :
    storyTokens story
        = (⌊(pythonWords (format_story_for_prompt story) : ℚ) / (0.75 : ℚ)⌋).toNat ∧
      format_story_for_prompt story
        = pyStrip
            (pyStr "\nStory ID: " ++ story.reddit_id
              ++ pyStr "\nSubreddit: r/" ++ story.subreddit
              ++ pyStr "\nFlair: " ++ flairOrNone story.flair
              ++ pyStr "\nContent: " ++ story.content
              ++ pyStr "\n") :=
  ⟨(floor_div_point_75 (pythonWords (format_story_for_prompt story))).symm, rfl⟩

/-- Embedding of `BaseDatabaseManager.insert_story`: the `INSERT` into the
stories table hits the primary key on `reddit_id`; a duplicate key raises
`IntegrityError`, which the method catches, returning `False` and leaving
the table unchanged; otherwise the row is stored and `True` returned. -/
def hasStoryId (table : List StoryData) (id : List Char) : Bool :=
  table.any (fun r => decide (r.reddit_id = id))

def insert_story (table : List StoryData) (row : StoryData) :
    List StoryData × Bool :=
  if hasStoryId table row.reddit_id then (table, false)
  else (table ++ [row], true)

/-- C9: insertion and merging are idempotent. Inserting a story whose id
is not yet stored succeeds; inserting it again returns `False` (not newly
inserted) without raising, leaves the table unchanged, and exactly one row
with that id is stored. Merging the same evaluation row again inserts zero
rows and leaves exactly one stored row with that id. -/
theorem insert_merge_idempotent :
    (∀ (table : List StoryData) (row : StoryData),
        hasStoryId table row.reddit_id = false →
          (insert_story table row).2 = true ∧
            (insert_story (insert_story table row).1 row).1
              = (insert_story table row).1 ∧
            (insert_story (insert_story table row).1 row).2 = false ∧
            ((insert_story (insert_story table row).1 row).1.filter
                (fun r => decide (r.reddit_id = row.reddit_id))).length = 1) ∧
      ∀ (table : List EvalRow) (e : EvalRow),
        hasEvalId table e.reddit_id = false →
          (insertEvalsBatch table [e]).2 = 1 ∧
            (insertEvalsBatch (insertEvalsBatch table [e]).1 [e]).2 = 0 ∧
            ((insertEvalsBatch (insertEvalsBatch table [e]).1 [e]).1.filter
                (fun r => decide (r.reddit_id = e.reddit_id))).length = 1 := by
  constructor
  · intro table row hfree
    have hfilter : table.filter (fun r => decide (r.reddit_id = row.reddit_id)) = [] := by
      rw [List.filter_eq_nil_iff]
      intro r hr
      simp only [decide_eq_true_eq]
      intro heq
      have : hasStoryId table row.reddit_id = true := by
        rw [hasStoryId, List.any_eq_true]
        exact ⟨r, hr, by simp [heq]⟩
      simp [this] at hfree
    have h1 : insert_story table row = (table ++ [row], true) := by
      rw [insert_story, if_neg (by simp [hfree])]
    have hdup : hasStoryId (table ++ [row]) row.reddit_id = true := by
      rw [hasStoryId, List.any_eq_true]
      exact ⟨row, by simp, by simp⟩
    have h2 : insert_story (table ++ [row]) row = (table ++ [row], false) := by
      rw [insert_story, if_pos hdup]
    rw [h1]
    simp only [h2]
    simp [List.filter_append, hfilter]
  · intro table e hfree
    have hfilter : table.filter (fun r => decide (r.reddit_id = e.reddit_id)) = [] := by
      rw [List.filter_eq_nil_iff]
      intro r hr
      simp only [decide_eq_true_eq]
      intro heq
      have : hasEvalId table e.reddit_id = true := by
        rw [hasEvalId, List.any_eq_true]
        exact ⟨r, hr, by simp [heq]⟩
      simp [this] at hfree
    have h1 : insertEvalsBatch table [e] = (table ++ [e], 1) := by
      rw [insertEvalsBatch, if_neg (by simp [hfree])]
      rfl
    have hdup : hasEvalId (table ++ [e]) e.reddit_id = true := by
      rw [hasEvalId, List.any_eq_true]
      exact ⟨e, by simp, by simp⟩
    have h2 : insertEvalsBatch (table ++ [e]) [e] = (table ++ [e], 0) := by
      rw [insertEvalsBatch, if_pos hdup]
      rfl
    rw [h1]
    simp only [h2]
    simp [List.filter_append, hfilter]

/-- A concrete evaluation row for the witnesses. -/
def demoRow : EvalRow := evalRowOf demoRecord

/-- Witness for C9 at concrete inputs: double-insert of a story and
double-merge of an evaluation into empty tables. -/
theorem insert_merge_idempotent_witness :
    ((insert_story [] demoStory).2 = true ∧
        (insert_story (insert_story [] demoStory).1 demoStory).1
          = (insert_story [] demoStory).1 ∧
        (insert_story (insert_story [] demoStory).1 demoStory).2 = false ∧
        ((insert_story (insert_story [] demoStory).1 demoStory).1.filter
            (fun r => decide (r.reddit_id = demoStory.reddit_id))).length = 1) ∧
      (insertEvalsBatch [] [demoRow]).2 = 1 ∧
        (insertEvalsBatch (insertEvalsBatch [] [demoRow]).1 [demoRow]).2 = 0 ∧
        ((insertEvalsBatch (insertEvalsBatch [] [demoRow]).1 [demoRow]).1.filter
            (fun r => decide (r.reddit_id = demoRow.reddit_id))).length = 1 :=
  ⟨insert_merge_idempotent.1 [] demoStory (by decide),
    insert_merge_idempotent.2 [] demoRow (by decide)⟩

/-- The rows of the `LEFT JOIN ... WHERE se.reddit_id IS NULL` query of
`get_unevaluated_stories` (database.py lines 178-184): stories with no
matching evaluation row, ordered by `created_utc` descending (the tie
order is unspecified in SQL; the embedding fixes it with a stable sort,
which the claims below do not depend on). -/
def unevaluatedRows (stories : List StoryData) (evals : List EvalRow) :
    List StoryData :=
  List.insertionSort (fun a b => b.created_utc ≤ a.created_utc)
    (stories.filter (fun s => !hasEvalId evals s.reddit_id))

/-- Python truthiness of the `limit` argument: `if limit:` is false for
`None` and for `0`. The embedding restricts `limit` to the non-negative
values the command line produces. -/
def limitTruthy : Option Nat → Bool
  | none => false
  | some n => decide (n ≠ 0)

/-- Embedding of `BaseDatabaseManager.get_unevaluated_stories`: the
`LIMIT {limit}` clause is appended to the query only when `limit` is
truthy. -/
def get_unevaluated_stories (stories : List StoryData) (evals : List EvalRow)
    (limit : Option Nat) : List StoryData :=
  if limitTruthy limit then (unevaluatedRows stories evals).take (limit.getD 0)
  else unevaluatedRows stories evals

/-- C10: calling `get_unevaluated_stories` with `limit = 0` behaves
exactly like `limit = None` — the limit is tested for truthiness, `0` is
falsy, so no `LIMIT` clause is added and every unevaluated story is
returned. -/
theorem get_unevaluated_stories_zero_limit (stories : List StoryData)
    (evals : List EvalRow) :
    get_unevaluated_stories stories evals (some 0)
        = get_unevaluated_stories stories evals none ∧
      get_unevaluated_stories stories evals (some 0)
        = unevaluatedRows stories evals :=
  ⟨rfl, rfl⟩

end Shorts
